import Mathlib

/-!
Verification development for the OfflineAI streaming relay
(Server/Server.js `app.post("/api/chat")` handler and the chat client).

JavaScript strings are modelled as `List Char` (Unicode scalar values);
upstream bytes as `List Nat`. All definitions are translated from the
source; platform primitives (`JSON.parse`, `TextDecoder`, `String(x)`,
object spread) are modelled after their specified behaviour.
-/

set_option maxRecDepth 4096

namespace OfflineAI

/-! ## JSON values, as produced by JSON.parse -/

/-- A parsed JSON value. Numbers keep their lexeme pieces
(sign, integer digits, fraction digits, exponent sign, exponent digits)
so that JS truthiness of the number is decidable without floats. -/
inductive Json where
  | null : Json
  | bool : Bool → Json
  | num : Bool → List Char → List Char → Bool → List Char → Json
  | str : List Char → Json
  | arr : List Json → Json
  | obj : List (List Char × Json) → Json

/-- Field lookup in an object field list (keys are unique by construction). -/
def lookupField : List (List Char × Json) → List Char → Option Json
  | [], _ => none
  | (k, v) :: fs, key => if k = key then some v else lookupField fs key

/-- JS property write: overwrite in place if the key exists, else append.
Used both by JSON.parse (duplicate keys, last wins) and by object spread. -/
def objInsert : List (List Char × Json) → List Char → Json → List (List Char × Json)
  | [], k, v => [(k, v)]
  | (k1, v1) :: fs, k, v =>
      if k1 = k then (k1, v) :: fs else (k1, v1) :: objInsert fs k v

/-- Property access `j.k` as it behaves on JSON.parse results: objects give
their field, everything else (including arrays and strings, whose named
properties here are absent) gives undefined. Access on `null` throws in JS;
the only such access sites are handled explicitly at their call sites. -/
def getField : Json → List Char → Option Json
  | Json.obj fs, k => lookupField fs k
  | _, _ => none

/-- JS truthiness of a JSON.parse result. A parsed number is falsy exactly
when all its mantissa digits are zero. -/
def jsTruthy : Json → Bool
  | Json.null => false
  | Json.bool b => b
  | Json.str s => !s.isEmpty
  | Json.num _ ip fp _ _ => (ip ++ fp).any (fun c => c != '0')
  | Json.arr _ => true
  | Json.obj _ => true

/-- Reassemble the number lexeme. This models `String(n)` for numbers; it is
exact for plain integer lexemes, which are the only numerals the relay can
be asked to coerce in practice. -/
def numText (neg : Bool) (ip fp : List Char) (es : Bool) (ep : List Char) : List Char :=
  (if neg then ['-'] else []) ++ ip ++
    (if fp.isEmpty then [] else '.' :: fp) ++
    (if ep.isEmpty then [] else 'e' :: ((if es then ['-'] else []) ++ ep))

/-- Comma-join for Array.prototype.toString. -/
def commaJoin : List (List Char) → List Char
  | [] => []
  | [x] => x
  | x :: xs => x ++ ',' :: commaJoin xs

/-- Fuelled body of the JS `String(x)` coercion (fuel bounds array nesting;
JS recursion is likewise stack-bounded). In array joins, null elements
become empty text, per Array.prototype.join. -/
def jsStringF : Nat → Json → List Char
  | fuel, j =>
    match j with
    | Json.arr xs =>
        match fuel with
        | 0 => []
        | f + 1 =>
            commaJoin (xs.map (fun x =>
              match x with
              | Json.null => []
              | y => jsStringF f y))
    | Json.null => "null".toList
    | Json.bool true => "true".toList
    | Json.bool false => "false".toList
    | Json.str s => s
    | Json.num n i f es e => numText n i f es e
    | Json.obj _ => "[object Object]".toList

/-- JS `String(x)` coercion of a JSON.parse result. -/
def jsString (j : Json) : List Char := jsStringF 4096 j

/-- Shorthand for a JSON integer literal as it appears in the server code. -/
def jnum (n : Nat) : Json := Json.num false (Nat.toDigits 10 n) [] false []

/-! ## JSON.parse

A recursive-descent parser over `List Char`, faithful to the JSON grammar
JSON.parse accepts: RFC 8259 values, `\uXXXX` escapes with surrogate
pairing, no trailing input, whitespace limited to space, tab, LF, CR.
Fuel is structural so that the parser reduces in the kernel; the initial
fuel exceeds any possible recursion depth for the given input. -/

/-- JSON whitespace (the only characters JSON.parse skips between tokens). -/
def jsonWs (c : Char) : Bool := c = ' ' || c = '\t' || c = '\n' || c = '\r'

/-- Drop leading JSON whitespace. -/
def skipWs : List Char → List Char
  | [] => []
  | c :: cs => if jsonWs c then skipWs cs else c :: cs

/-- Hex digit value. -/
def hexD (c : Char) : Option Nat :=
  if '0' ≤ c ∧ c ≤ '9' then some (c.toNat - 48)
  else if 'a' ≤ c ∧ c ≤ 'f' then some (c.toNat - 87)
  else if 'A' ≤ c ∧ c ≤ 'F' then some (c.toNat - 55)
  else none

/-- Four hex digits. -/
def hex4 (a b c d : Char) : Option Nat :=
  match hexD a, hexD b, hexD c, hexD d with
  | some x, some y, some z, some w => some (((x * 16 + y) * 16 + z) * 16 + w)
  | _, _, _, _ => none

/-- The Unicode replacement character. -/
def replChar : Char := Char.ofNat 0xFFFD

/-- Cons a character onto the pending string-literal parse result. -/
def consFst (c : Char) : Option (List Char × List Char) → Option (List Char × List Char)
  | none => none
  | some (s, r) => some (c :: s, r)

/-- The opening curly bracket character. -/
def lbrace : Char := Char.ofNat 123

/-- The closing curly bracket character. -/
def rbrace : Char := Char.ofNat 125

/-- Parse the body of a JSON string literal (the opening quote is already
consumed); returns the decoded text and the input after the closing quote.
Lone surrogates from `\uXXXX` escapes are modelled as the replacement
character, matching the bytes a relayed JS string would produce. -/
def parseStr : Nat → List Char → Option (List Char × List Char)
  | 0, _ => none
  | _ + 1, [] => none
  | fuel + 1, c :: cs =>
    if c = '"' then some ([], cs)
    else if c = '\\' then
      match cs with
      | [] => none
      | e :: cs2 =>
        if e = '"' || e = '\\' || e = '/' then consFst e (parseStr fuel cs2)
        else if e = 'b' then consFst (Char.ofNat 8) (parseStr fuel cs2)
        else if e = 'f' then consFst (Char.ofNat 12) (parseStr fuel cs2)
        else if e = 'n' then consFst '\n' (parseStr fuel cs2)
        else if e = 'r' then consFst '\r' (parseStr fuel cs2)
        else if e = 't' then consFst '\t' (parseStr fuel cs2)
        else if e = 'u' then
          match cs2 with
          | h1 :: h2 :: h3 :: h4 :: cs3 =>
            match hex4 h1 h2 h3 h4 with
            | none => none
            | some n =>
              if 0xD800 ≤ n ∧ n ≤ 0xDBFF then
                match cs3 with
                | '\\' :: 'u' :: g1 :: g2 :: g3 :: g4 :: cs4 =>
                  match hex4 g1 g2 g3 g4 with
                  | some m =>
                    if 0xDC00 ≤ m ∧ m ≤ 0xDFFF then
                      consFst (Char.ofNat (0x10000 + (n - 0xD800) * 0x400 + (m - 0xDC00)))
                        (parseStr fuel cs4)
                    else consFst replChar (parseStr fuel cs3)
                  | none => consFst replChar (parseStr fuel cs3)
                | _ => consFst replChar (parseStr fuel cs3)
              else if 0xDC00 ≤ n ∧ n ≤ 0xDFFF then consFst replChar (parseStr fuel cs3)
              else consFst (Char.ofNat n) (parseStr fuel cs3)
          | _ => none
        else none
    else if c.toNat < 32 then none
    else consFst c (parseStr fuel cs)

/-- Parse a JSON number starting at the given input; returns its lexeme
pieces and the remaining input. -/
def parseNum (cs : List Char) : Option (Json × List Char) :=
  let sgn : Bool × List Char :=
    match cs with
    | '-' :: r => (true, r)
    | _ => (false, cs)
  match List.span Char.isDigit sgn.2 with
  | ([], _) => none
  | (ip, rest1) =>
    if 1 < ip.length ∧ ip.headD '1' = '0' then none
    else
      let frac : Option (List Char × List Char) :=
        match rest1 with
        | '.' :: r =>
          match List.span Char.isDigit r with
          | ([], _) => none
          | (fp, rest2) => some (fp, rest2)
        | _ => some ([], rest1)
      match frac with
      | none => none
      | some (fp, rest2) =>
        match rest2 with
        | 'e' :: r => parseExp sgn.1 ip fp r
        | 'E' :: r => parseExp sgn.1 ip fp r
        | _ => some (Json.num sgn.1 ip fp false [], rest2)
where
  parseExp (neg : Bool) (ip fp : List Char) (r : List Char) : Option (Json × List Char) :=
    let es : Bool × List Char :=
      match r with
      | '+' :: r2 => (false, r2)
      | '-' :: r2 => (true, r2)
      | _ => (false, r)
    match List.span Char.isDigit es.2 with
    | ([], _) => none
    | (ep, rest) => some (Json.num neg ip fp es.1 ep, rest)

/-- Parsing mode: a value, the members of an object after the opening
bracket, or the elements of an array after the opening bracket. -/
inductive PMode where
  | val : PMode
  | objRest : List (List Char × Json) → PMode
  | arrRest : List Json → PMode

/-- The recursive-descent core of JSON.parse. -/
def parseP : Nat → PMode → List Char → Option (Json × List Char)
  | 0, _, _ => none
  | fuel + 1, PMode.val, cs =>
    match skipWs cs with
    | [] => none
    | c :: r =>
      if c = '"' then
        match parseStr fuel r with
        | some (s, rest) => some (Json.str s, rest)
        | none => none
      else if c = lbrace then
        match skipWs r with
        | c2 :: r2 =>
          if c2 = rbrace then some (Json.obj [], r2)
          else parseP fuel (PMode.objRest []) (skipWs r)
        | [] => none
      else if c = '[' then
        match skipWs r with
        | c2 :: r2 =>
          if c2 = ']' then some (Json.arr [], r2)
          else parseP fuel (PMode.arrRest []) (skipWs r)
        | [] => none
      else if c = 't' then
        match r with
        | 'r' :: 'u' :: 'e' :: r2 => some (Json.bool true, r2)
        | _ => none
      else if c = 'f' then
        match r with
        | 'a' :: 'l' :: 's' :: 'e' :: r2 => some (Json.bool false, r2)
        | _ => none
      else if c = 'n' then
        match r with
        | 'u' :: 'l' :: 'l' :: r2 => some (Json.null, r2)
        | _ => none
      else parseNum (c :: r)
  | fuel + 1, PMode.objRest acc, cs =>
    match cs with
    | c :: r =>
      if c = '"' then
        match parseStr fuel r with
        | some (k, r2) =>
          match skipWs r2 with
          | ':' :: r3 =>
            match parseP fuel PMode.val r3 with
            | some (v, r4) =>
              match skipWs r4 with
              | ',' :: r5 => parseP fuel (PMode.objRest (objInsert acc k v)) (skipWs r5)
              | c2 :: r5 =>
                if c2 = rbrace then some (Json.obj (objInsert acc k v), r5) else none
              | [] => none
            | none => none
          | _ => none
        | none => none
      else none
    | [] => none
  | fuel + 1, PMode.arrRest acc, cs =>
    match parseP fuel PMode.val cs with
    | some (v, r) =>
      match skipWs r with
      | ',' :: r2 => parseP fuel (PMode.arrRest (acc ++ [v])) r2
      | ']' :: r2 => some (Json.arr (acc ++ [v]), r2)
      | _ => none
    | none => none

/-- JSON.parse: a complete value with nothing but whitespace after it. -/
def jsonParse (cs : List Char) : Option Json :=
  match parseP (cs.length + 8) PMode.val cs with
  | some (v, rest) => if skipWs rest = [] then some v else none
  | none => none

/-! ## TextDecoder

The WHATWG UTF-8 streaming decoder used by `new TextDecoder()` with
`decode(value, signal stream)`: a byte-at-a-time state machine that carries
incomplete sequences across chunk boundaries, emits the replacement
character on malformed input (reprocessing the offending byte), and strips
a leading byte-order mark. -/

/-- Decoder state: pending code point bits, how many continuation bytes are
still needed and already seen, the valid range for the next continuation
byte, and whether the leading-BOM check has already been resolved. -/
structure DecState where
  code : Nat
  needed : Nat
  seen : Nat
  lo : Nat
  hi : Nat
  bom : Bool
deriving DecidableEq

/-- The initial decoder state. -/
def DecState.start : DecState := ⟨0, 0, 0, 0x80, 0xBF, false⟩

/-- Handle a byte in the ground state (no sequence pending). -/
def startByte (bom : Bool) (b : Nat) : DecState × List Char :=
  if b ≤ 0x7F then (⟨0, 0, 0, 0x80, 0xBF, bom⟩, [Char.ofNat b])
  else if 0xC2 ≤ b ∧ b ≤ 0xDF then (⟨b % 32, 1, 0, 0x80, 0xBF, bom⟩, [])
  else if 0xE0 ≤ b ∧ b ≤ 0xEF then
    (⟨b % 16, 2, 0, if b = 0xE0 then 0xA0 else 0x80, if b = 0xED then 0x9F else 0xBF, bom⟩, [])
  else if 0xF0 ≤ b ∧ b ≤ 0xF4 then
    (⟨b % 8, 3, 0, if b = 0xF0 then 0x90 else 0x80, if b = 0xF4 then 0x8F else 0xBF, bom⟩, [])
  else (⟨0, 0, 0, 0x80, 0xBF, bom⟩, [replChar])

/-- Handle a byte while a multi-byte sequence is pending: either extend or
complete the sequence, or emit a replacement character and reprocess the
byte from the ground state. -/
def contByte (s : DecState) (b : Nat) : DecState × List Char :=
  if s.lo ≤ b ∧ b ≤ s.hi then
    if s.seen + 1 = s.needed then
      (⟨0, 0, 0, 0x80, 0xBF, s.bom⟩, [Char.ofNat (s.code * 64 + b % 64)])
    else (⟨s.code * 64 + b % 64, s.needed, s.seen + 1, 0x80, 0xBF, s.bom⟩, [])
  else
    ((startByte s.bom b).1, replChar :: (startByte s.bom b).2)

/-- Strip a byte-order mark: the first character ever emitted is dropped if
it is U+FEFF (which can only arise from the leading bytes EF BB BF). -/
def bomFilter (s : DecState) (cs : List Char) : DecState × List Char :=
  if s.bom then (s, cs)
  else
    match cs with
    | [] => (s, [])
    | c :: rest =>
      (⟨s.code, s.needed, s.seen, s.lo, s.hi, true⟩,
        if c = Char.ofNat 0xFEFF then rest else c :: rest)

/-- Feed one byte to the decoder. -/
def decodeByte (s : DecState) (b : Nat) : DecState × List Char :=
  if s.needed = 0 then bomFilter (startByte s.bom b).1 (startByte s.bom b).2
  else bomFilter (contByte s b).1 (contByte s b).2

/-- Feed a chunk of bytes to the decoder: `decode(value, signal stream)`. -/
def decodeBytes : DecState → List Nat → DecState × List Char
  | s, [] => (s, [])
  | s, b :: bs =>
    ((decodeBytes (decodeByte s b).1 bs).1,
      (decodeByte s b).2 ++ (decodeBytes (decodeByte s b).1 bs).2)

/-! ## The streaming loop -/

/-- JS whitespace for String.prototype.trim. -/
def jsWs (c : Char) : Bool :=
  c.toNat = 9 || c.toNat = 10 || c.toNat = 11 || c.toNat = 12 || c.toNat = 13 ||
  c.toNat = 32 || c.toNat = 0xA0 || c.toNat = 0x1680 ||
  (0x2000 ≤ c.toNat && c.toNat ≤ 0x200A) ||
  c.toNat = 0x2028 || c.toNat = 0x2029 || c.toNat = 0x202F ||
  c.toNat = 0x205F || c.toNat = 0x3000 || c.toNat = 0xFEFF

/-- The test `!text.trim()`: the text is empty or whitespace-only. -/
def isBlank (cs : List Char) : Bool := cs.all jsWs

/-- The split `buffer.split(backslash n)` of JS, on `List Char`. -/
def splitNl : List Char → List (List Char)
  | [] => [[]]
  | c :: cs =>
    if c = '\n' then [] :: splitNl cs
    else
      match splitNl cs with
      | [] => [[c]]
      | s :: ss => (c :: s) :: ss

/-- Field keys used by the relay. -/
def respKey : List Char := "response".toList

/-- The message key. -/
def msgKey : List Char := "message".toList

/-- The content key. -/
def contentKey : List Char := "content".toList

/-- The error key. -/
def errKey : List Char := "error".toList

/-- The optional chain `obj?.message?.content`. -/
def msgContent (j : Json) : Option Json :=
  match getField j msgKey with
  | some m => getField m contentKey
  | none => none

/-- Per-line handling inside the read loop (Server.js lines 88 to 115):
skip blank lines; on a parsed object write a non-empty string `response`
field, then a non-empty string `message.content`, then `String(error)` if
nothing has been written for the request yet; if JSON.parse throws, or the
parsed value is `null` (so that `obj.response` throws), the raw line is
forwarded verbatim by the catch. Returns the fragments written by this
line and the updated wrote-something flag. -/
def handleLine (line : List Char) (wrote : Bool) : List (List Char) × Bool :=
  if isBlank line then ([], wrote)
  else
    match jsonParse line with
    | none => ([line], true)
    | some Json.null => ([line], true)
    | some obj =>
      let r1 : List (List Char) × Bool :=
        match getField obj respKey with
        | some (Json.str s) => if s.isEmpty then ([], wrote) else ([s], true)
        | _ => ([], wrote)
      let r2 : List (List Char) × Bool :=
        match msgContent obj with
        | some (Json.str s) => if s.isEmpty then r1 else (r1.1 ++ [s], true)
        | _ => r1
      match getField obj errKey with
      | some e => if jsTruthy e && !r2.2 then (r2.1 ++ [jsString e], true) else r2
      | none => r2

/-- Handle a list of complete lines in order, threading the wrote flag. -/
def handleLines : List (List Char) → Bool → List (List Char) × Bool
  | [], w => ([], w)
  | l :: ls, w =>
    ((handleLine l w).1 ++ (handleLines ls (handleLine l w).2).1,
      (handleLines ls (handleLine l w).2).2)

/-- The text-level per-request state: the line buffer, the wrote-something
flag, and the fragments written so far in order. -/
structure PState where
  buffer : List Char
  wrote : Bool
  out : List (List Char)
deriving DecidableEq

/-- One loop iteration at the text level: append decoded text to the
buffer, split on newlines, keep the trailing segment as the new buffer and
handle every complete line. -/
def stepText (s : PState) (t : List Char) : PState :=
  ⟨(splitNl (s.buffer ++ t)).getLastD [],
    (handleLines (splitNl (s.buffer ++ t)).dropLast s.wrote).2,
    s.out ++ (handleLines (splitNl (s.buffer ++ t)).dropLast s.wrote).1⟩

/-- The invariant of the retained line buffer: it never contains a
newline (it is always the trailing split segment). -/
def noNl (cs : List Char) : Prop := '\n' ∉ cs

/-- A character-at-a-time reformulation of the buffer-and-split loop, used
only to prove that `stepText` composes over concatenation. -/
def feedChar (s : PState) (c : Char) : PState :=
  if c = '\n' then
    ⟨[], (handleLine s.buffer s.wrote).2, s.out ++ (handleLine s.buffer s.wrote).1⟩
  else ⟨s.buffer ++ [c], s.wrote, s.out⟩

/-- The full per-request loop state: decoder plus text state. -/
structure LoopState where
  dec : DecState
  ps : PState
deriving DecidableEq

/-- The state at the top of the read loop. -/
def initLS : LoopState := ⟨DecState.start, ⟨[], false, []⟩⟩

/-- One iteration of the read loop for one upstream read result. -/
def stepChunk (s : LoopState) (chunk : List Nat) : LoopState :=
  ⟨(decodeBytes s.dec chunk).1, stepText s.ps (decodeBytes s.dec chunk).2⟩

/-- Helper for the residue flush: the `message.content` branch, which runs
after the `response` branch unless that branch threw. A truthy non-string
makes `res.write` throw, and the catch then forwards the raw residue. -/
def flushChat (obj : Json) (acc : List (List Char)) (w : Bool) (buffer : List Char) :
    List (List Char) × Bool :=
  match msgContent obj with
  | some v =>
    if jsTruthy v then
      match v with
      | Json.str s => (acc ++ [s], true)
      | _ => (acc ++ [buffer], true)
    else (acc, w)
  | none => (acc, w)

/-- The residue flush after the loop (Server.js lines 119 to 129): a
non-blank residue is parsed; a truthy `response` is written, then a truthy
`message.content`; there is no `error` branch. JSON.parse throwing, a
parsed `null` (member access throws), or `res.write` on a truthy
non-string value all land in the catch, which forwards the raw residue. -/
def flushResidue (buffer : List Char) (wrote : Bool) : List (List Char) × Bool :=
  if isBlank buffer then ([], wrote)
  else
    match jsonParse buffer with
    | none => ([buffer], true)
    | some Json.null => ([buffer], true)
    | some obj =>
      match getField obj respKey with
      | some v =>
        if jsTruthy v then
          match v with
          | Json.str s => flushChat obj [s] true buffer
          | _ => ([buffer], true)
        else flushChat obj [] wrote buffer
      | none => flushChat obj [] wrote buffer

/-- The whole streaming phase: run the read loop over the chunks, flush the
residue, and write one empty chunk if nothing was ever written. Returns
the exact sequence of fragments written to the client. -/
def processStream (chunks : List (List Nat)) : List (List Char) :=
  ((List.foldl stepChunk initLS chunks).ps.out ++
      (flushResidue (List.foldl stepChunk initLS chunks).ps.buffer
        (List.foldl stepChunk initLS chunks).ps.wrote).1) ++
    (if (flushResidue (List.foldl stepChunk initLS chunks).ps.buffer
          (List.foldl stepChunk initLS chunks).ps.wrote).2 then [] else [[]])

/-! ## Request normalization and the handler -/

/-- The configured default model name. -/
def chatModel : List Char := "llama3.2:3b-instruct-q4_K_M".toList

/-- The messages key of the request body. -/
def msgsKey : List Char := "messages".toList

/-- The prompt key of the request body. -/
def promptKey : List Char := "prompt".toList

/-- The model key of the request body. -/
def modelKey : List Char := "model".toList

/-- The options key of the request body. -/
def optionsKey : List Char := "options".toList

/-- Request-body field access, modelling the destructuring of
`req.body or empty object`: a falsy body yields no fields, a truthy one is
probed for the named property. -/
def bodyField (body : Option Json) (k : List Char) : Option Json :=
  match body with
  | some j => if jsTruthy j then getField j k else none
  | none => none

/-- The enumerable own entries a value contributes under object spread:
objects give their fields, strings and arrays give index-keyed entries,
primitives give nothing. -/
def spreadFields : Option Json → List (List Char × Json)
  | some (Json.obj fs) => fs
  | some (Json.str s) =>
      (List.range s.length).zip (s.map (fun c => Json.str [c])) |>.map
        (fun p => (Nat.toDigits 10 p.1, p.2))
  | some (Json.arr xs) =>
      (List.range xs.length).zip xs |>.map (fun p => (Nat.toDigits 10 p.1, p.2))
  | _ => []

/-- The generation options: the defaults spread-merged with the caller
supplied options, caller winning key by key. -/
def defaultOptions : List (List Char × Json) :=
  [("num_ctx".toList, jnum 2048), ("num_predict".toList, jnum 256),
    ("keep_alive".toList, Json.str "4h".toList)]

/-- The merged `genOpts` object for a request body. -/
def genOptsOf (body : Option Json) : List (List Char × Json) :=
  (spreadFields (bodyField body optionsKey)).foldl
    (fun acc kv => objInsert acc kv.1 kv.2) defaultOptions

/-- The resolved model name `String(model or CHAT_MODEL)`. -/
def modelNameOf (body : Option Json) : List Char :=
  match bodyField body modelKey with
  | some v => if jsTruthy v then jsString v else chatModel
  | none => chatModel

/-- The resolved prompt `String(prompt or empty)`. -/
def promptTextOf (body : Option Json) : List Char :=
  match bodyField body promptKey with
  | some v => if jsTruthy v then jsString v else []
  | none => []

/-- The upstream payload: chat shape or single-prompt shape. -/
inductive Payload where
  | chat : List Char → List Json → Bool → List (List Char × Json) → Payload
  | gen : List Char → List Char → Bool → List (List Char × Json) → Payload

/-- The upstream endpoint selected for a payload. -/
def endpointOf : Payload → List Char
  | Payload.chat _ _ _ _ => "/api/chat".toList
  | Payload.gen _ _ _ _ => "/api/generate".toList

/-- The stream flag of a payload. -/
def streamFlagOf : Payload → Bool
  | Payload.chat _ _ s _ => s
  | Payload.gen _ _ s _ => s

/-- Request normalization (Server.js lines 38 to 56): a non-empty messages
array selects the chat shape, anything else the single-prompt shape. -/
def normalize (body : Option Json) : Payload :=
  match bodyField body msgsKey with
  | some (Json.arr xs) =>
    if xs.isEmpty then
      Payload.gen (modelNameOf body) (promptTextOf body) true (genOptsOf body)
    else Payload.chat (modelNameOf body) xs true (genOptsOf body)
  | _ => Payload.gen (modelNameOf body) (promptTextOf body) true (genOptsOf body)

/-- The upstream response as the relay observes it: the `ok` flag, the
streaming body (as the list of read results) when one exists, and the
result of `r.text()` (`none` models a diagnostic read that throws). -/
structure Upstream where
  ok : Bool
  chunks : Option (List (List Nat))
  textRead : Option (List Char)

/-- What the client receives: a JSON document with a status code, or a
chunked plain-text stream of fragments. -/
inductive ClientResult where
  | jsonRes : Nat → Json → ClientResult
  | streamRes : List (List Char) → ClientResult

/-- The error text of the upstream-failure response body. -/
def ollamaError : List Char := "ollama_error".toList

/-- The detail key of the failure body. -/
def detailKey : List Char := "detail".toList

/-- The upstream-failure response: 502 with the best-effort diagnostic
text, an empty detail when the diagnostic read itself failed. -/
def upstreamFailure (up : Upstream) : ClientResult :=
  ClientResult.jsonRes 502
    (Json.obj [(errKey, Json.str ollamaError), (detailKey, Json.str (up.textRead.getD []))])

/-- The response phase of the handler (Server.js lines 65 to 132): a
non-ok status or a missing body short-circuits to the 502 failure result
without touching the stream; otherwise the NDJSON stream is relayed. -/
def respond (up : Upstream) : ClientResult :=
  match up.chunks with
  | none => upstreamFailure up
  | some cs => if up.ok then ClientResult.streamRes (processStream cs) else upstreamFailure up

/-- The whole request handler: normalization decides the upstream payload,
the upstream result decides the client response. -/
def relayHandler (body : Option Json) (up : Upstream) : Payload × ClientResult :=
  (normalize body, respond up)

/-- Projection: the fragments of a streamed result. -/
def resultFragments : ClientResult → List (List Char)
  | ClientResult.streamRes o => o
  | ClientResult.jsonRes _ _ => []

/-! ## The chat client (Chat component, unnamed source file) -/

/-- One conversation turn as the client stores it. -/
structure Turn where
  role : List Char
  content : List Char

/-- The fixed client-side history window. -/
def historyWindow : Nat := 12

/-- The JSON object the client builds for one turn (the map keeps only the
role and content properties). -/
def turnJson (t : Turn) : Json :=
  Json.obj [("role".toList, Json.str t.role), (contentKey, Json.str t.content)]

/-- The conversation the client sends: stored messages plus the new user
turn, truncated by `slice(-HISTORY_WINDOW)` to the last twelve turns. -/
def clientConvo (msgs : List Turn) (user : Turn) : List Turn :=
  (msgs ++ [user]).drop ((msgs ++ [user]).length - historyWindow)

/-- The options object the client sends. -/
def clientOptsJson : Json := Json.obj [("num_predict".toList, jnum 256)]

/-- The request body the client posts to the relay. -/
def clientBody (msgs : List Turn) (user : Turn) : Json :=
  Json.obj [(msgsKey, Json.arr ((clientConvo msgs user).map turnJson)),
    (optionsKey, clientOptsJson)]

/-- The merged options for the client request (num_predict 256 replaces
the identical default in place). -/
def clientGenOpts : List (List Char × Json) :=
  [("num_ctx".toList, jnum 2048), ("num_predict".toList, jnum 256),
    ("keep_alive".toList, Json.str "4h".toList)]

/-- ASCII text to bytes, for concrete upstream streams. -/
def asciiBytes (s : String) : List Nat := s.toList.map Char.toNat

/-! ## Concrete scenario inputs and result projections -/

/-- The test `Array.isArray(messages) and messages.length` on a body field. -/
def isNEArr : Option Json → Bool
  | some (Json.arr xs) => !xs.isEmpty
  | _ => false

/-- The status code of a JSON client result. -/
def resultStatus : ClientResult → Option Nat
  | ClientResult.jsonRes n _ => some n
  | ClientResult.streamRes _ => none

/-- A body field of a JSON client result. -/
def resultField (r : ClientResult) (k : List Char) : Option Json :=
  match r with
  | ClientResult.jsonRes _ j => getField j k
  | ClientResult.streamRes _ => none

/-- The text of a JSON string value. -/
def jsonAsText : Json → Option (List Char)
  | Json.str s => some s
  | _ => none

/-- The user turn of the hello scenario. -/
def helloTurn : Json :=
  Json.obj [("role".toList, Json.str "user".toList), (contentKey, Json.str "hello".toList)]

/-- The request body of the hello scenario. -/
def helloBody : Json := Json.obj [(msgsKey, Json.arr [helloTurn])]

/-- The upstream stream of the hello scenario: two chat-shape NDJSON
lines, each newline-terminated, in one read. -/
def helloUp : Upstream :=
  ⟨true, some [asciiBytes
    "\x7b\"message\":\x7b\"content\":\"He\"\x7d\x7d\n\x7b\"message\":\x7b\"content\":\"llo\"\x7d\x7d\n"],
    none⟩

/-- An upstream HTTP 500 whose diagnostic body reads oom. -/
def oomUp : Upstream := ⟨false, none, some "oom".toList⟩

/-- An upstream reply that is one single chat-shape JSON document with no
trailing newline. -/
def hiUp : Upstream :=
  ⟨true, some [asciiBytes "\x7b\"message\":\x7b\"content\":\"hi\"\x7d\x7d"], none⟩

/-- A buffer residue that is an error-only JSON object. -/
def errResidue : List Char := "\x7b\"error\":\"boom\"\x7d".toList

/-! ## Lemmas: the decoder and the line splitter compose over
concatenation, which is the heart of read-chunking invariance. -/

theorem decodeBytes_append (s : DecState) (a b : List Nat) :
    decodeBytes s (a ++ b) =
      ((decodeBytes (decodeBytes s a).1 b).1,
        (decodeBytes s a).2 ++ (decodeBytes (decodeBytes s a).1 b).2) := by
  induction a generalizing s with
  | nil => simp [decodeBytes]
  | cons x xs ih => simp [decodeBytes, ih, List.append_assoc]

theorem splitNl_ne_nil (cs : List Char) : splitNl cs ≠ [] := by
  induction cs with
  | nil => simp [splitNl]
  | cons c cs ih =>
    by_cases hc : c = '\n'
    · simp [splitNl, hc]
    · cases h : splitNl cs with
      | nil => simp [splitNl, hc, h]
      | cons s ss => simp [splitNl, hc, h]

theorem splitNl_eq_single {cs : List Char} (h : noNl cs) : splitNl cs = [cs] := by
  induction cs with
  | nil => rfl
  | cons c cs ih =>
    have hc : ¬ (c = '\n') := fun e => h (by simp [e])
    have ht : noNl cs := fun m => h (List.mem_cons_of_mem _ m)
    simp [splitNl, hc, ih ht]

theorem splitNl_append_nl {β : List Char} (h : noNl β) (rest : List Char) :
    splitNl (β ++ '\n' :: rest) = β :: splitNl rest := by
  induction β with
  | nil => simp [splitNl]
  | cons c bs ih =>
    have hc : ¬ (c = '\n') := fun e => h (by simp [e])
    have hb : noNl bs := fun m => h (List.mem_cons_of_mem _ m)
    simp [splitNl, hc, ih hb]

theorem getLastD_irrel {α : Type} :
    ∀ {l : List α}, l ≠ [] → ∀ d d' : α, l.getLastD d = l.getLastD d'
  | [], h, _, _ => absurd rfl h
  | [_], _, _, _ => rfl
  | _ :: _ :: _, _, _, _ => by simp only [List.getLastD_cons]

theorem noNl_splitNl_getLastD (cs : List Char) : noNl ((splitNl cs).getLastD []) := by
  induction cs with
  | nil => simp [splitNl, noNl]
  | cons c cs ih =>
    by_cases hc : c = '\n'
    · rw [show splitNl (c :: cs) = [] :: splitNl cs by simp [splitNl, hc]]
      rw [List.getLastD_cons, getLastD_irrel (splitNl_ne_nil cs) [] []]
      exact ih
    · cases h : splitNl cs with
      | nil => exact absurd h (splitNl_ne_nil cs)
      | cons s ss =>
        rw [show splitNl (c :: cs) = (c :: s) :: ss by simp [splitNl, hc, h]]
        cases ss with
        | nil =>
          have : (splitNl cs).getLastD [] = s := by rw [h]; rfl
          intro m
          rcases List.mem_cons.mp m with h1 | h1
          · exact hc h1.symm
          · exact (this ▸ ih) h1
        | cons s2 ss2 =>
          rw [List.getLastD_cons, getLastD_irrel (l := s2 :: ss2) (by simp) (c :: s) []]
          have : (splitNl cs).getLastD [] = (s2 :: ss2).getLastD [] := by
            rw [h, List.getLastD_cons, getLastD_irrel (l := s2 :: ss2) (by simp) s []]
          exact this ▸ ih

theorem handleLines_append (a b : List (List Char)) (w : Bool) :
    handleLines (a ++ b) w =
      ((handleLines a w).1 ++ (handleLines b (handleLines a w).2).1,
        (handleLines b (handleLines a w).2).2) := by
  induction a generalizing w with
  | nil => simp [handleLines]
  | cons l ls ih => simp [handleLines, ih, List.append_assoc]

theorem stepText_eq_foldl {s : PState} (h : noNl s.buffer) (t : List Char) :
    stepText s t = List.foldl feedChar s t := by
  induction t generalizing s with
  | nil =>
    cases s with
    | mk buf w out =>
      simp only [stepText, List.foldl, List.append_nil]
      rw [splitNl_eq_single h]
      simp [handleLines]
  | cons c t ih =>
    cases s with
    | mk buf w out =>
      by_cases hc : c = '\n'
      · subst hc
        have hS := splitNl_ne_nil t
        cases hSf : splitNl t with
        | nil => exact absurd hSf hS
        | cons s1 ss =>
          simp only [List.foldl]
          rw [show feedChar ⟨buf, w, out⟩ '\n' =
                ⟨[], (handleLine buf w).2, out ++ (handleLine buf w).1⟩ by
              simp [feedChar]]
          rw [← ih (s := ⟨[], (handleLine buf w).2, out ++ (handleLine buf w).1⟩)
              (by simp [noNl])]
          simp only [stepText, List.nil_append, hSf]
          rw [show ({ buffer := buf, wrote := w, out := out } : PState).buffer ++
                '\n' :: t = buf ++ '\n' :: t from rfl]
          rw [splitNl_append_nl h, hSf]
          rw [List.getLastD_cons, getLastD_irrel (l := s1 :: ss) (by simp) [] buf]
          simp [handleLines, List.append_assoc]
      · have hb : noNl (buf ++ [c]) := by
          intro m
          rcases List.mem_append.mp m with h1 | h1
          · exact h h1
          · exact hc (List.mem_singleton.mp h1).symm
        simp only [List.foldl]
        rw [show feedChar ⟨buf, w, out⟩ c = ⟨buf ++ [c], w, out⟩ by
            simp [feedChar, hc]]
        rw [← ih (s := ⟨buf ++ [c], w, out⟩) hb]
        simp only [stepText]
        rw [show ({ buffer := buf, wrote := w, out := out } : PState).buffer ++
              c :: t = (buf ++ [c]) ++ t by simp]

theorem stepText_append {s : PState} (h : noNl s.buffer) (t u : List Char) :
    stepText (stepText s t) u = stepText s (t ++ u) := by
  have h2 : noNl (stepText s t).buffer := noNl_splitNl_getLastD _
  rw [stepText_eq_foldl h2, stepText_eq_foldl h, stepText_eq_foldl h, ← List.foldl_append]

theorem noNl_stepChunk (s : LoopState) (c : List Nat) : noNl (stepChunk s c).ps.buffer :=
  noNl_splitNl_getLastD _

theorem stepChunk_append {s : LoopState} (h : noNl s.ps.buffer) (a b : List Nat) :
    stepChunk (stepChunk s a) b = stepChunk s (a ++ b) := by
  simp [stepChunk, decodeBytes_append, stepText_append h]

theorem foldl_stepChunk_flatten (chunks : List (List Nat)) {s : LoopState}
    (h : noNl s.ps.buffer) :
    List.foldl stepChunk s chunks = stepChunk s chunks.flatten := by
  induction chunks generalizing s with
  | nil =>
    cases s with
    | mk d ps =>
      simp only [List.foldl, List.flatten, stepChunk, decodeBytes]
      rw [stepText_eq_foldl h]
      simp
  | cons c cs ih =>
    simp only [List.foldl, List.flatten_cons]
    rw [ih (noNl_stepChunk s c), stepChunk_append h]

/-! ## Lemmas about normalization and the options merge -/

theorem lookupField_objInsert (fs : List (List Char × Json)) (k key : List Char) (v : Json) :
    lookupField (objInsert fs k v) key = if k = key then some v else lookupField fs key := by
  induction fs with
  | nil => simp [objInsert, lookupField]
  | cons p fs ih =>
    obtain ⟨k1, v1⟩ := p
    by_cases h1 : k1 = k
    · subst h1
      by_cases h2 : k1 = key <;> simp [objInsert, lookupField, h2]
    · by_cases h2 : k1 = key
      · subst h2
        have : ¬ (k = k1) := fun e => h1 e.symm
        simp [objInsert, lookupField, h1, this]
      · simp [objInsert, lookupField, h1, h2, ih]

theorem lookupField_append (xs ys : List (List Char × Json)) (k : List Char) :
    lookupField (xs ++ ys) k =
      (lookupField xs k).orElse (fun _ => lookupField ys k) := by
  induction xs with
  | nil => simp [lookupField, Option.orElse]
  | cons p xs ih =>
    obtain ⟨k1, v1⟩ := p
    by_cases h : k1 = k <;> simp [lookupField, h, ih, Option.orElse]

theorem lookupField_spread (fs acc : List (List Char × Json)) (k : List Char) :
    lookupField (fs.foldl (fun a kv => objInsert a kv.1 kv.2) acc) k =
      (lookupField fs.reverse k).orElse (fun _ => lookupField acc k) := by
  induction fs generalizing acc with
  | nil => simp [lookupField, Option.orElse]
  | cons p fs ih =>
    obtain ⟨k1, v1⟩ := p
    simp only [List.foldl_cons, List.reverse_cons]
    rw [ih, lookupField_append]
    cases lookupField fs.reverse k with
    | some v => simp [Option.orElse]
    | none =>
      by_cases h : k1 = k <;>
        simp [Option.orElse, lookupField, lookupField_objInsert, h]

theorem normalize_chat (b : Option Json) (xs : List Json)
    (h : bodyField b msgsKey = some (Json.arr xs)) (hne : xs ≠ []) :
    normalize b = Payload.chat (modelNameOf b) xs true (genOptsOf b) := by
  cases xs with
  | nil => exact absurd rfl hne
  | cons a as => simp [normalize, h]

theorem normalize_gen (b : Option Json) (h : isNEArr (bodyField b msgsKey) = false) :
    normalize b = Payload.gen (modelNameOf b) (promptTextOf b) true (genOptsOf b) := by
  cases hm : bodyField b msgsKey with
  | none => simp [normalize, hm]
  | some v =>
    cases v with
    | arr xs =>
      cases xs with
      | nil => simp [normalize, hm]
      | cons a as => rw [hm] at h; simp [isNEArr] at h
    | null => simp [normalize, hm]
    | bool bb => simp [normalize, hm]
    | num n i f es e => simp [normalize, hm]
    | str s => simp [normalize, hm]
    | obj fs => simp [normalize, hm]

theorem promptTextOf_none (b : Option Json) (h : bodyField b promptKey = none) :
    promptTextOf b = [] := by
  simp [promptTextOf, h]

theorem modelNameOf_none (b : Option Json) (h : bodyField b modelKey = none) :
    modelNameOf b = chatModel := by
  simp [modelNameOf, h]

theorem genOptsOf_none (b : Option Json) (h : bodyField b optionsKey = none) :
    genOptsOf b = defaultOptions := by
  simp [genOptsOf, h, spreadFields]

theorem genOptsOf_lookup (b : Option Json) (fs : List (List Char × Json))
    (k : List Char) (h : bodyField b optionsKey = some (Json.obj fs)) :
    lookupField (genOptsOf b) k =
      (lookupField fs.reverse k).orElse (fun _ => lookupField defaultOptions k) := by
  simp only [genOptsOf, h, spreadFields]
  exact lookupField_spread fs defaultOptions k

theorem normalize_client_cons (x : Json) (xs : List Json) :
    normalize (some (Json.obj [(msgsKey, Json.arr (x :: xs)), (optionsKey, clientOptsJson)])) =
      Payload.chat chatModel (x :: xs) true clientGenOpts := rfl

/-! ## The claims -/

/-- Claim C1: the streaming relay is read-chunking invariant: splitting
the same total upstream bytes across arbitrarily many read calls,
including splits in the middle of a line and in the middle of a
multi-byte character, writes exactly the same fragments to the client in
the same order as processing all the bytes in one single read. -/
theorem processStream_read_chunking_invariant (chunks : List (List Nat)) :
    processStream chunks = processStream [chunks.flatten] := by
  have h : noNl initLS.ps.buffer := by simp [initLS, noNl]
  have e : List.foldl stepChunk initLS chunks =
      List.foldl stepChunk initLS [chunks.flatten] := by
    rw [foldl_stepChunk_flatten chunks h]; rfl
  simp only [processStream, e]

/-- Claim C2: for the request body with the single user turn hello and an
upstream stream of the two newline-terminated chat-shape lines carrying
He and llo, the client receives exactly the fragments He then llo, whose
concatenation is Hello with no extra characters. -/
theorem hello_scenario_stream :
    relayHandler (some helloBody) helloUp =
      (Payload.chat chatModel [helloTurn] true defaultOptions,
        ClientResult.streamRes ["He".toList, "llo".toList]) ∧
    (resultFragments (relayHandler (some helloBody) helloUp).2).flatten =
      "Hello".toList :=
  ⟨rfl, rfl⟩

/-- Claim C3: input normalization: a non-empty messages array selects the
chat payload at the chat endpoint; otherwise the single-prompt payload at
the generate endpoint, with the prompt defaulting to empty text; the
model defaults to the configured default when absent; the options are the
shallow merge of the three defaults with the caller options, the caller
winning key by key. -/
theorem normalize_request_shapes :
    (∀ b xs, bodyField b msgsKey = some (Json.arr xs) → xs ≠ [] →
      normalize b = Payload.chat (modelNameOf b) xs true (genOptsOf b) ∧
        endpointOf (normalize b) = "/api/chat".toList) ∧
    (∀ b, isNEArr (bodyField b msgsKey) = false →
      normalize b = Payload.gen (modelNameOf b) (promptTextOf b) true (genOptsOf b) ∧
        endpointOf (normalize b) = "/api/generate".toList) ∧
    (∀ b, bodyField b promptKey = none → promptTextOf b = []) ∧
    (∀ b, bodyField b modelKey = none → modelNameOf b = chatModel) ∧
    (∀ b, bodyField b optionsKey = none → genOptsOf b = defaultOptions) ∧
    (∀ b fs k, bodyField b optionsKey = some (Json.obj fs) →
      lookupField (genOptsOf b) k =
        (lookupField fs.reverse k).orElse (fun _ => lookupField defaultOptions k)) := by
  refine ⟨?_, ?_, promptTextOf_none, modelNameOf_none, genOptsOf_none, ?_⟩
  · intro b xs h hne
    refine ⟨normalize_chat b xs h hne, ?_⟩
    rw [normalize_chat b xs h hne]
    rfl
  · intro b h
    refine ⟨normalize_gen b h, ?_⟩
    rw [normalize_gen b h]
    rfl
  · intro b fs k h
    exact genOptsOf_lookup b fs k h

/-- Witness for C3: a one-turn messages body normalizes to the chat
payload with the default model and options, and a caller-supplied
num_predict overrides the default key by key. -/
theorem normalize_request_shapes_witness :
    normalize (some (Json.obj [(msgsKey, Json.arr [Json.null])])) =
      Payload.chat chatModel [Json.null] true defaultOptions ∧
    lookupField (genOptsOf (some (Json.obj [(optionsKey,
        Json.obj [("num_predict".toList, jnum 64)])]))) "num_predict".toList =
      some (jnum 64) := by
  constructor
  · exact (normalize_request_shapes.1 (some (Json.obj [(msgsKey, Json.arr [Json.null])]))
      [Json.null] rfl (by simp)).1
  · rw [normalize_request_shapes.2.2.2.2.2
      (some (Json.obj [(optionsKey, Json.obj [("num_predict".toList, jnum 64)])]))
      [("num_predict".toList, jnum 64)] "num_predict".toList rfl]
    rfl

/-- Counterexample to C4 as stated: the upstream-failure body tags the
error as ollama_error, not upstream_error, for the 500 oom upstream. -/
theorem upstream_error_key_counterexample :
    resultStatus (respond oomUp) = some 502 ∧
    (resultField (respond oomUp) errKey).bind jsonAsText = some "ollama_error".toList ∧
    (resultField (respond oomUp) errKey).bind jsonAsText ≠ some "upstream_error".toList ∧
    (resultField (respond oomUp) detailKey).bind jsonAsText = some "oom".toList := by
  refine ⟨rfl, rfl, ?_, rfl⟩
  decide

/-- Claim C4 (amended): on upstream failure, a non-success status or a
missing streaming body, the relay answers 502 with a JSON body whose
error field is ollama_error and whose detail is the best-effort upstream
diagnostic text, empty when the diagnostic read itself failed, without
ever touching the stream as NDJSON. -/
theorem upstream_failure_returns_502 (up : Upstream)
    (h : up.ok = false ∨ up.chunks = none) :
    respond up = ClientResult.jsonRes 502
      (Json.obj [(errKey, Json.str ollamaError),
        (detailKey, Json.str (up.textRead.getD []))]) := by
  cases hc : up.chunks with
  | none => simp [respond, hc, upstreamFailure]
  | some cs =>
    rcases h with h | h
    · simp [respond, hc, h, upstreamFailure]
    · rw [hc] at h
      exact absurd h (by simp)

/-- Witness for C4: the 500 oom upstream produces the 502 ollama_error
response with detail oom. -/
theorem upstream_failure_returns_502_witness :
    respond oomUp = ClientResult.jsonRes 502
      (Json.obj [(errKey, Json.str ollamaError), (detailKey, Json.str "oom".toList)]) :=
  upstream_failure_returns_502 oomUp (Or.inl rfl)

/-- Claim C5: any non-blank candidate line that fails JSON.parse is
forwarded to the client verbatim, in its stream position relative to the
fragments of the surrounding lines. -/
theorem nonjson_line_forwarded_verbatim (line : List Char) (w : Bool)
    (pre post : List (List Char))
    (hb : isBlank line = false) (hp : jsonParse line = none) :
    (handleLines (pre ++ line :: post) w).1 =
      (handleLines pre w).1 ++ line :: (handleLines post true).1 := by
  rw [handleLines_append]
  have hl : ∀ w', handleLine line w' = ([line], true) := by
    intro w'
    simp [handleLine, hb, hp]
  simp [handleLines, hl]

/-- Witness for C5: the line oops is forwarded verbatim between a JSON
line and the end of the stream. -/
theorem nonjson_line_forwarded_verbatim_witness :
    (handleLines (["\x7b\"response\":\"a\"\x7d".toList] ++ "oops".toList :: []) false).1 =
      (handleLines ["\x7b\"response\":\"a\"\x7d".toList] false).1 ++
        "oops".toList :: (handleLines [] true).1 :=
  nonjson_line_forwarded_verbatim "oops".toList false _ [] rfl rfl

/-- Counterexample to C6 as stated: the error-only residue writes nothing
during the flush, while the in-loop handler would have written the error
text boom; the residue is not handled exactly like an in-loop line. -/
theorem residue_error_not_written_counterexample :
    flushResidue errResidue false = ([], false) ∧
    handleLine errResidue false = (["boom".toList], true) :=
  ⟨rfl, rfl⟩

/-- Claim C6 (amended): the post-loop residue, when non-empty and
non-whitespace, is parsed as JSON and the response and message.content
extraction rules are applied to it in that order, and it is forwarded
verbatim when parsing fails; unlike an in-loop candidate line, the error
field is never consulted for the residue. -/
theorem residue_flush_extraction (buf : List Char) (w : Bool) :
    (jsonParse buf = none → isBlank buf = false → flushResidue buf w = ([buf], true)) ∧
    (∀ obj, jsonParse buf = some obj → obj ≠ Json.null → isBlank buf = false →
      getField obj respKey = none → msgContent obj = none →
      flushResidue buf w = ([], w)) ∧
    (∀ obj s c, jsonParse buf = some obj → isBlank buf = false →
      getField obj respKey = some (Json.str s) → s ≠ [] →
      msgContent obj = some (Json.str c) → c ≠ [] →
      flushResidue buf w = ([s, c], true)) := by
  refine ⟨?_, ?_, ?_⟩
  · intro hp hb
    simp [flushResidue, hp, hb]
  · intro obj hp hn hb hr hm
    cases obj with
    | null => exact absurd rfl hn
    | bool bb => simp [flushResidue, hp, hb, flushChat, getField, msgContent]
    | num n i f es e => simp [flushResidue, hp, hb, flushChat, getField, msgContent]
    | str s => simp [flushResidue, hp, hb, flushChat, getField, msgContent]
    | arr xs => simp [flushResidue, hp, hb, flushChat, getField, msgContent]
    | obj fs =>
      rw [show getField (Json.obj fs) respKey = lookupField fs respKey from rfl] at hr
      simp [flushResidue, hp, hb, flushChat, getField, hr, hm]
  · intro obj s c hp hb hr hs hm hc
    cases obj with
    | null => exact absurd hr (by simp [getField])
    | bool bb => exact absurd hr (by simp [getField])
    | num n i f es e => exact absurd hr (by simp [getField])
    | str s2 => exact absurd hr (by simp [getField])
    | arr xs => exact absurd hr (by simp [getField])
    | obj fs =>
      have hse : s.isEmpty = false := by
        cases s with
        | nil => exact absurd rfl hs
        | cons a as => rfl
      have hce : c.isEmpty = false := by
        cases c with
        | nil => exact absurd rfl hc
        | cons a as => rfl
      rw [show getField (Json.obj fs) respKey = lookupField fs respKey from rfl] at hr
      simp [flushResidue, hp, hb, flushChat, getField, hr, hm, jsTruthy, hse, hce]

/-- Witness for C6: the error-only residue with nothing yet written
flushes to no output and an unchanged wrote flag. -/
theorem residue_flush_extraction_witness :
    flushResidue errResidue false = ([], false) :=
  (residue_flush_extraction errResidue false).2.1
    (Json.obj [(errKey, Json.str "boom".toList)]) rfl
    (fun h => Json.noConfusion h) rfl rfl rfl

/-- Counterexample to C7 as stated: the single chat-shape upstream
document is relayed as a plain-text stream of the fragment hi; the client
never receives a JSON document response on the success path. -/
theorem nonstreaming_roundtrip_counterexample :
    respond hiUp = ClientResult.streamRes ["hi".toList] ∧
    resultStatus (respond hiUp) = none :=
  ⟨rfl, rfl⟩

/-- Claim C7 (amended): the relay always requests a streaming upstream
body, every normalized payload has its stream flag set, and relays the
bytes through the streaming path: the single chat-shape document carrying
hi reaches the client as the raw text fragment hi, not as a JSON
document. -/
theorem relay_always_streams :
    (∀ b, streamFlagOf (normalize b) = true) ∧
    respond hiUp = ClientResult.streamRes ["hi".toList] := by
  refine ⟨?_, rfl⟩
  intro b
  cases hm : bodyField b msgsKey with
  | none => simp [normalize, hm, streamFlagOf]
  | some v =>
    cases v with
    | arr xs => cases xs <;> simp [normalize, hm, streamFlagOf]
    | null => simp [normalize, hm, streamFlagOf]
    | bool bb => simp [normalize, hm, streamFlagOf]
    | num n i f es e => simp [normalize, hm, streamFlagOf]
    | str s => simp [normalize, hm, streamFlagOf]
    | obj fs => simp [normalize, hm, streamFlagOf]

/-- Claim C8: the turn sequence the upstream payload carries is the
client conversation truncated to the most recent twelve turns, forwarded
unchanged by the relay: it is a suffix of the full history, its length is
the window capped by the history length, and order is preserved. -/
theorem history_window_upstream (msgs : List Turn) (user : Turn) :
    normalize (some (clientBody msgs user)) =
      Payload.chat chatModel ((clientConvo msgs user).map turnJson) true clientGenOpts ∧
    clientConvo msgs user <:+ msgs ++ [user] ∧
    (clientConvo msgs user).length = min historyWindow (msgs ++ [user]).length := by
  refine ⟨?_, ?_, ?_⟩
  · have hne : clientConvo msgs user ≠ [] := by
      unfold clientConvo
      intro hEq
      have hlen := congrArg List.length hEq
      rw [List.length_drop] at hlen
      simp only [List.length_nil, List.length_append, List.length_singleton] at hlen
      unfold historyWindow at hlen
      omega
    cases hc : clientConvo msgs user with
    | nil => exact absurd hc hne
    | cons t ts =>
      rw [show clientBody msgs user =
            Json.obj [(msgsKey, Json.arr ((t :: ts).map turnJson)),
              (optionsKey, clientOptsJson)] by
          unfold clientBody
          rw [hc]]
      rw [List.map_cons, normalize_client_cons]
  · exact List.drop_suffix _ _
  · rw [show (clientConvo msgs user).length =
          (msgs ++ [user]).length - ((msgs ++ [user]).length - historyWindow) from by
        unfold clientConvo
        rw [List.length_drop]]
    unfold historyWindow
    omega

/-- Claim C9: when the loop and the flush wrote nothing, the relay writes
exactly one empty chunk, so the request terminates cleanly with an empty
client stream. -/
theorem empty_output_single_empty_chunk (chunks : List (List Nat))
    (h1 : (List.foldl stepChunk initLS chunks).ps.out = [])
    (h2 : flushResidue (List.foldl stepChunk initLS chunks).ps.buffer
        (List.foldl stepChunk initLS chunks).ps.wrote = ([], false)) :
    processStream chunks = [[]] := by
  simp [processStream, h1, h2]

/-- Witness for C9: a stream whose only line parses but carries no
recognized field yields exactly one empty chunk. -/
theorem empty_output_single_empty_chunk_witness :
    processStream [asciiBytes "\x7b\"done\":true\x7d\n"] = [[]] :=
  empty_output_single_empty_chunk _ rfl rfl

/-- Counterexample to C10 as stated: a body with neither messages nor
prompt but with a model field keeps that model instead of the configured
default. -/
theorem default_model_counterexample :
    normalize (some (Json.obj [(modelKey, Json.str "x".toList)])) =
      Payload.gen "x".toList [] true defaultOptions ∧
    "x".toList ≠ chatModel := by
  refine ⟨rfl, ?_⟩
  decide

/-- Claim C10 (amended): a request whose body is missing or carries
neither a non-empty messages array nor a prompt normalizes, without
faulting, to the single-prompt payload with the empty prompt, the model
defaulting to the configured default when absent, and the upstream call
proceeds with that payload. -/
theorem empty_body_totalizes (b : Option Json)
    (hm : isNEArr (bodyField b msgsKey) = false)
    (hp : bodyField b promptKey = none) :
    normalize b = Payload.gen (modelNameOf b) [] true (genOptsOf b) ∧
    (bodyField b modelKey = none → modelNameOf b = chatModel) := by
  constructor
  · rw [normalize_gen b hm, promptTextOf_none b hp]
  · exact modelNameOf_none b

/-- Witness for C10: the missing body normalizes to the generate payload
with the empty prompt, the default model and the default options. -/
theorem empty_body_totalizes_witness :
    normalize none = Payload.gen chatModel [] true defaultOptions :=
  (empty_body_totalizes none rfl rfl).1

end OfflineAI
